import Mathlib

/-!
Verification of the STOOQ data-ingestion notebook
(`src/data/create_stooq_data.ipynb`).

The notebook defines three pieces of logic that the claims are about:

* `download_price_data(market, freq)` — checks that the archive
  `stooq/.downloaded/{freq}_{market}_txt.zip` exists (raising
  `FileNotFoundError` otherwise) and extracts every zip member whose
  name ends in `.txt` under `stooq/`.

* `get_stooq_prices_and_tickers(frequency, market, asset_class)` — walks
  the `*.txt` files of a dataset directory, parses each with
  `pd.read_csv(file, names=names, usecols=usecols, header=0,
  parse_dates=parse_dates)`, appends the frame to a list, records
  `tickers[df.ticker.iloc[0]] = file.stem.split('.')[0].lower()`, and on
  `pd.errors.EmptyDataError` or `IndexError` prints
  `'\tdata missing', file.stem` and moves on.  At the end it runs
  `pd.concat(prices, ignore_index=True).rename(columns=str.lower)
  .set_index(['ticker', date_label]).apply(lambda x: pd.to_numeric(x,
  errors='coerce'))` and returns the frame together with
  `pd.Series(tickers)`.

* the markets store loop — for each hard-coded `(market, asset_class)`
  pair it calls the function above, restricts the result to the years
  2000–2019 (`prices.sort_index().loc[idx[:, '2000':'2019'], :]`),
  deduplicates (`reset_index().drop_duplicates().set_index(names)
  .sort_index()`), and writes prices and tickers to the single HDF store
  under `key = f'stooq/{market}/{asset_class.replace(" ", "/")}/'` plus
  `'prices'` / `'tickers'`.

The embedding below models a parsed per-ticker file shallowly: reading a
text file with pandas either raises `EmptyDataError` (a file with no
columns at all) or yields a list of typed rows (possibly empty, in which
case `df.ticker.iloc[0]` raises `IndexError`).  Cell values are modelled
by an inductive `Cell` that distinguishes numeric values, non-numeric
strings (which `pd.read_csv` keeps as Python strings in an
object-dtype column) and NaN; `pd.to_numeric(·, errors='coerce')` is the
element-wise map that parses strings to numbers and turns unparseable
values into NaN.  Floats are modelled by `Int` (the claims never depend
on fractional values); pandas `drop_duplicates` treats NaN as equal to
NaN, which the decidable equality of `Cell` matches.  `sort_index` is
modelled by an insertion sort on the (ticker, date) key: pandas'
quicksort is not stable, so the order among rows with equal keys is not
specified by the source either, and no claim below depends on it.
-/

/-- A calendar date (or date-time collapsed to its date part); only the
ordering and the year are ever inspected by the notebook. -/
structure SDate where
  year : Nat
  month : Nat
  day : Nat
deriving DecidableEq, Repr

/-- A cell value as produced by `pd.read_csv` without an explicit dtype:
a numeric value, a non-numeric string kept verbatim, or NaN. -/
inductive Cell where
  | num (v : Int)
  | str (s : String)
  | nan
deriving DecidableEq, Repr

/-- Parse a run of decimal digits, most significant first. -/
def digitsToNat (acc : Nat) : List Char → Option Nat
  | [] => some acc
  | c :: rest =>
      if c.isDigit then digitsToNat (acc * 10 + (c.toNat - 48)) rest else none

/-- The numeric parser applied by `pd.to_numeric` to a string cell,
restricted to the integer literals the `Int`-valued model can hold. -/
def parseIntStr (s : String) : Option Int :=
  match s.data with
  | [] => none
  | '-' :: rest =>
      match rest with
      | [] => none
      | _ => (digitsToNat 0 rest).map fun n => -(n : Int)
  | cs => (digitsToNat 0 cs).map fun n => (n : Int)

/-- Model of `pd.to_numeric(x, errors='coerce')`, element-wise: numbers pass
through, parseable strings become numbers, everything else becomes NaN. -/
def toNumericCell : Cell → Cell
  | .num v => .num v
  | .str s => match parseIntStr s with
              | some v => .num v
              | none => .nan
  | .nan => .nan

/-- One price observation, with the columns selected by
`usecols = ['ticker', 'open', 'high', 'low', 'close', 'volume'] + parse_dates`. -/
structure Row where
  ticker : String
  date : SDate
  «open» : Cell
  high : Cell
  low : Cell
  close : Cell
  volume : Cell
deriving DecidableEq, Repr

/-- Model of `df.apply(lambda x: pd.to_numeric(x, errors='coerce'))` after
`set_index(['ticker', date_label])`: the coercion hits only the value
columns, not the index levels. -/
def coerceRow (r : Row) : Row :=
  { r with «open» := toNumericCell r.«open», high := toNumericCell r.high,
           low := toNumericCell r.low, close := toNumericCell r.close,
           volume := toNumericCell r.volume }

/-- What `pd.read_csv` does to one per-ticker text file: raise
`pd.errors.EmptyDataError` (a file with no columns to parse), or return
the list of data rows (possibly empty, for a file that has only a
header line). -/
inductive Content where
  | emptyData
  | rows (rs : List Row)
deriving DecidableEq, Repr

/-- A per-ticker text file as seen by the loop: its `Path.stem` and what
parsing it yields. -/
structure SFile where
  stem : String
  content : Content
deriving DecidableEq, Repr

/-- Model of `file.stem.split('.')[0].lower()`: the characters of the stem before
its first `'.'`, lower-cased character by character. -/
def stemKey (stem : String) : String :=
  ⟨(stem.data.takeWhile fun c => c ≠ '.').map Char.toLower⟩

/-- Python-dict assignment `d[k] = v`: overwrite the value in place when
the key exists, append a fresh entry otherwise (insertion order kept). -/
def dictInsert (k v : String) : List (String × String) → List (String × String)
  | [] => [(k, v)]
  | (k', v') :: rest =>
      if k' = k then (k, v) :: rest else (k', v') :: dictInsert k v rest

/-- The mutable state of the `for i, file in enumerate(files, 1):` loop:
the `prices` list of per-file frames, the `tickers` dict, and the lines
printed to the console. -/
structure LoopState where
  frames : List (List Row)
  tickers : List (String × String)
  log : List String
deriving DecidableEq, Repr

/-- One iteration of the file loop.  `prices.append(df)` runs before
`tickers[df.ticker.iloc[0]] = ...`, so a file whose frame has no data
rows is appended to `prices` before `iloc[0]` raises the `IndexError`
that the `except (pd.errors.EmptyDataError, IndexError)` arm catches and
logs. -/
def fileStep (s : LoopState) (f : SFile) : LoopState :=
  match f.content with
  | .emptyData =>
      { s with log := s.log ++ ["\tdata missing " ++ f.stem] }
  | .rows rs =>
      let s' := { s with frames := s.frames ++ [rs] }
      match rs with
      | [] => { s' with log := s'.log ++ ["\tdata missing " ++ f.stem] }
      | r :: _ =>
          { s' with tickers := dictInsert r.ticker (stemKey f.stem) s'.tickers }

/-- The whole file loop of `get_stooq_prices_and_tickers`, started from
empty `prices`, `tickers` and console. -/
def processFiles (files : List SFile) : LoopState :=
  files.foldl fileStep ⟨[], [], []⟩

/-- The `date_label` value as computed from the `frequency` argument. -/
def date_label (frequency : String) : String :=
  if frequency = "5 min" ∨ frequency = "hourly" then "date_time" else "date"

/-- The fixed `names` list passed to every `pd.read_csv` call. -/
def csvNames : List String :=
  ["ticker", "freq", "date", "time", "open", "high", "low", "close", "volume", "openint"]

/-- The `usecols` list for the daily case
(`['ticker', 'open', 'high', 'low', 'close', 'volume'] + ['date']`). -/
def usecolsDaily : List String :=
  ["ticker", "open", "high", "low", "close", "volume", "date"]

/-- Model of `get_stooq_prices_and_tickers`: run the file loop, then
`pd.concat(prices, ignore_index=True)` — which raises
`ValueError('No objects to concatenate')` when the `prices` list is
empty — followed by `rename(columns=str.lower)` (a no-op on these
column names), `set_index(['ticker', date_label])` and the element-wise
numeric coercion.  The prices frame is modelled by its row list and the
ticker series by the assoc list of the `tickers` dict. -/
def get_stooq_prices_and_tickers (frequency : String) (files : List SFile) :
    Except String (List Row × List (String × String)) :=
  let s := processFiles files
  if s.frames.isEmpty then
    .error "No objects to concatenate"
  else
    .ok (s.frames.flatten.map coerceRow, s.tickers)

/-- The per-file frame that `pd.read_csv` produced: no rows for a file
that raised `EmptyDataError`. -/
def contentRows (f : SFile) : List Row :=
  match f.content with
  | .emptyData => []
  | .rows rs => rs

/-- The rows of the combined prices frame (total function: the row list
is empty exactly when `pd.concat` would have nothing to concatenate). -/
def pricesRowsOfFiles (files : List SFile) : List Row :=
  (processFiles files).frames.flatten.map coerceRow

/-- The console output of the file loop. -/
def logOfFiles (files : List SFile) : List String :=
  (processFiles files).log

/-- The tickers dict built by the file loop. -/
def tickersOfFiles (files : List SFile) : List (String × String) :=
  (processFiles files).tickers

/-- Lexicographic order on dates. -/
def dateLeB (d e : SDate) : Bool :=
  if d.year ≠ e.year then d.year < e.year
  else if d.month ≠ e.month then d.month < e.month
  else d.day ≤ e.day

/-- Strict lexicographic order on the character lists of two strings
(the order pandas uses on the string level of the index). -/
def charListLtB : List Char → List Char → Bool
  | [], [] => false
  | [], _ :: _ => true
  | _ :: _, [] => false
  | a :: as, b :: bs =>
      if a < b then true else if b < a then false else charListLtB as bs

/-- The (ticker, date) index order used by `sort_index()`. -/
def rowLeB (a b : Row) : Bool :=
  if charListLtB a.ticker.data b.ticker.data then true
  else if charListLtB b.ticker.data a.ticker.data then false
  else dateLeB a.date b.date

/-- Insert a row into an index-sorted row list. -/
def insertRow (r : Row) : List Row → List Row
  | [] => [r]
  | x :: xs => if rowLeB r x then r :: x :: xs else x :: insertRow r xs

/-- Model of `sort_index()`: reorder the rows by the (ticker, date) index.
pandas' default quicksort is not stable, so the source fixes no order
among rows with equal index keys; the claims below never depend on the
output order, only on the fact that sorting is a permutation. -/
def sortIndex : List Row → List Row
  | [] => []
  | r :: rs => insertRow r (sortIndex rs)

/-- The year filter `.loc[idx[:, '2000':'2019'], :]` of the store loop: partial-string
slicing on the date level keeps exactly the dates from 2000-01-01
through the end of 2019. -/
def yearInRange (r : Row) : Bool :=
  2000 ≤ r.date.year && r.date.year ≤ 2019

/-- Model of `drop_duplicates()` on the frame after `reset_index()`: keep the
first occurrence of each full row (index columns included), drop every
later exact duplicate.  `seen` holds the rows already kept. -/
def dropDupAux (seen : List Row) : List Row → List Row
  | [] => []
  | r :: rs =>
      if r ∈ seen then dropDupAux seen rs
      else r :: dropDupAux (r :: seen) rs

/-- Model of `drop_duplicates()` with its default `keep='first'`. -/
def drop_duplicates (l : List Row) : List Row :=
  dropDupAux [] l

/-- The body of the store loop applied to the prices frame returned by
`get_stooq_prices_and_tickers`:
`prices.sort_index().loc[idx[:, '2000':'2019'], :]` followed by
`reset_index().drop_duplicates().set_index(names).sort_index()`. -/
def storeTable (rows : List Row) : List Row :=
  sortIndex (drop_duplicates ((sortIndex rows).filter yearInRange))

/-- The prices table the store loop would write for a given directory
state (the composition of the file loop, the numeric coercion and the
store-loop processing). -/
def storeTableOfFiles (files : List SFile) : List Row :=
  storeTable (pricesRowsOfFiles files)

/-- The hard-coded `markets` dict of the store loop. -/
def markets : List (String × List String) :=
  [("us", ["nasdaq etfs", "nasdaq stocks", "nyse etfs", "nyse stocks", "nysemkt stocks"])]

/-- Model of `asset_class.replace(" ", "/")` — the pattern is the single space
character, so the replacement is a character map. -/
def replaceSpaces (s : String) : String :=
  ⟨s.data.map fun c => if c = ' ' then '/' else c⟩

/-- The store key prefix `key = f'stooq/{market}/{asset_class.replace(" ", "/")}/'`. -/
def storeKey (market asset_class : String) : String :=
  "stooq/" ++ market ++ "/" ++ replaceSpaces asset_class ++ "/"

/-- A value stored in the HDF store: a prices table or a ticker series. -/
inductive Entry where
  | prices (t : List Row)
  | tickers (t : List (String × String))
deriving DecidableEq, Repr

/-- The single `DATA_STORE` file: a keyed namespace of named tables. -/
def Store := List (String × Entry)

/-- Model of `to_hdf(DATA_STORE, key, format='t')`: put the value under the key,
overwriting any existing value at that key. -/
def to_hdf (store : Store) (key : String) (e : Entry) : Store :=
  match store with
  | [] => [(key, e)]
  | (k', e') :: rest =>
      if k' = key then (key, e) :: rest else (k', e') :: to_hdf rest key e

/-- Lookup of a key in the store. -/
def storeGet (store : Store) (key : String) : Option Entry :=
  match store with
  | [] => none
  | (k', e') :: rest => if k' = key then some e' else storeGet rest key

/-- One iteration of the inner store loop: fetch the pair's data, filter
and deduplicate the prices, and write both tables under the pair's key
prefix.  A `ValueError` escaping `pd.concat` aborts the loop. -/
def storePair (fs : String → String → List SFile) (market asset_class : String)
    (store : Store) : Except String Store :=
  match get_stooq_prices_and_tickers "daily" (fs market asset_class) with
  | .error e => .error e
  | .ok (prices, tickers) =>
      let key := storeKey market asset_class
      let store := to_hdf store (key ++ "prices") (.prices (storeTable prices))
      .ok (to_hdf store (key ++ "tickers") (.tickers tickers))

/-- The store loop over one market's asset classes. -/
def storeAssetclasses (fs : String → String → List SFile) (market : String) :
    List String → Store → Except String Store
  | [], store => .ok store
  | ac :: acs, store =>
      match storePair fs market ac store with
      | .error e => .error e
      | .ok store' => storeAssetclasses fs market acs store'

/-- The store loop over a list of (market, asset-class list) pairs. -/
def storeMarkets (fs : String → String → List SFile) :
    List (String × List String) → Store → Except String Store
  | [], store => .ok store
  | (market, acs) :: rest, store =>
      match storeAssetclasses fs market acs store with
      | .error e => .error e
      | .ok store' => storeMarkets fs rest store'

/-- The whole markets store loop with `frequency = 'daily'`, the
hard-coded `markets`, and an initially empty `DATA_STORE`.  `fs` maps a
(market, asset-class) pair to the `*.txt` files found under
`stooq/data/data/daily/{market}/{asset_class}`. -/
def marketsLoop (fs : String → String → List SFile) : Except String Store :=
  storeMarkets fs markets []

/-- The per-file frames that survive the loop, in enumeration order: one
frame for every file whose `pd.read_csv` call did not raise
`EmptyDataError` (files without data rows contribute an empty frame). -/
def framesOf (files : List SFile) : List (List Row) :=
  files.filterMap fun f =>
    match f.content with
    | .rows rs => some rs
    | .emptyData => none

/-- The `'\tdata missing'` console lines, in enumeration order: one line
per file that raised `EmptyDataError` (no columns) or `IndexError`
(a frame without data rows at `df.ticker.iloc[0]`).  The progress
prints (`print(i)` every 500 files) are not modelled. -/
def logLinesOf (files : List SFile) : List String :=
  files.filterMap fun f =>
    match f.content with
    | .emptyData => some ("\tdata missing " ++ f.stem)
    | .rows [] => some ("\tdata missing " ++ f.stem)
    | .rows (_ :: _) => none

/-- The effect of one file on the `tickers` dict alone. -/
def tickStep (t : List (String × String)) (f : SFile) : List (String × String) :=
  match f.content with
  | .rows (r :: _) => dictInsert r.ticker (stemKey f.stem) t
  | _ => t

/-- The `tickers` dict as a fold of `tickStep`. -/
def tickersFold (t : List (String × String)) (files : List SFile) :
    List (String × String) :=
  files.foldl tickStep t

/-- The parsed rows as `pd.read_csv` produced them, before the numeric
coercion, in enumeration order. -/
def rawRowsOfFiles (files : List SFile) : List Row :=
  (processFiles files).frames.flatten

/-- The ticker of the first data row of a file, when it has one. -/
def firstTicker (f : SFile) : Option String :=
  match f.content with
  | .rows (r :: _) => some r.ticker
  | _ => none

/-- A file that contributes a `tickers` entry: its frame has a first
data row. -/
def contributes (f : SFile) : Bool :=
  match f.content with
  | .rows (_ :: _) => true
  | _ => false

/-- Python-dict lookup `d[k]` on the assoc-list model. -/
def dictGet (d : List (String × String)) (k : String) : Option String :=
  match d with
  | [] => none
  | (k', v) :: rest => if k' = k then some v else dictGet rest k

/-- A cell holding a numeric value. -/
def numericCell : Cell → Bool
  | .num _ => true
  | _ => false

/-- A row all of whose value cells are numeric (the normal case for a
well-formed STOOQ price file). -/
def numericRow (r : Row) : Bool :=
  numericCell r.«open» && numericCell r.high && numericCell r.low &&
    numericCell r.close && numericCell r.volume

/-- The uniqueness property claimed for the stored table: any two
distinct rows differ in their (ticker, date) index pair. -/
def tickerDateUnique (t : List Row) : Prop :=
  t.Pairwise fun a b => a.ticker ≠ b.ticker ∨ a.date ≠ b.date

/-- Model of `str.endswith(suffix)` on the character-list view of a string. -/
def strEndsWith (s suffix : String) : Bool :=
  suffix.data.isSuffixOf s.data

/-- One member of the downloaded zip archive: its name and its lines. -/
structure ZMember where
  name : String
  data : List String
deriving DecidableEq, Repr

/-- The archive path `stooq_path.joinpath('.downloaded', f'{freq}_{market}_txt.zip')`. -/
def archivePath (market freq : String) : String :=
  "stooq/.downloaded/" ++ freq ++ "_" ++ market ++ "_txt.zip"

/-- Model of `download_price_data(market, freq)`.  `arch` maps an archive path to
the member list of the zip file at that path, when one exists.  When the
archive is missing the function raises `FileNotFoundError`; otherwise it
walks `zip_file.namelist()`, skips every member whose name does not end
in `'.txt'`, and extracts each remaining member to `stooq_path / file`
(creating parent directories with `mkdir(parents=True, exist_ok=True)`,
a pure filesystem effect with no observable output modelled here).  The
result is the list of (local path, contents) pairs written. -/
def download_price_data (arch : String → Option (List ZMember))
    (market freq : String) : Except String (List (String × List String)) :=
  match arch (archivePath market freq) with
  | none =>
      .error ("You must download the data first. " ++ archivePath market freq ++ " not found.")
  | some members =>
      .ok ((members.filter fun m => strEndsWith m.name ".txt").map
            fun m => ("stooq/" ++ m.name, m.data))

/-- A compact concrete price row used by the concrete test inputs. -/
def sampleRow (t : String) (y mo d : Nat) (c : Int) : Row :=
  ⟨t, ⟨y, mo, d⟩, .num 1, .num 2, .num 0, .num c, .num 100⟩

/-- A directory with one file holding two rows that agree on (ticker,
date) but differ in `close`. -/
def c3files : List SFile :=
  [⟨"dup.us", .rows [sampleRow "D.US" 2010 5 3 7, sampleRow "D.US" 2010 5 3 8]⟩]

/-- A directory with one file whose `volume` cell is the non-numeric
string `'n/a'`. -/
def c5files : List SFile :=
  [⟨"bad.us", .rows [⟨"B.US", ⟨2011, 2, 1⟩, .num 1, .num 2, .num 0, .num 3, .str "n/a"⟩]⟩]

/-- A directory with one file whose `volume` cell is the non-numeric
string `'x'`. -/
def c7files : List SFile :=
  [⟨"strp.us", .rows [⟨"S.US", ⟨2012, 3, 2⟩, .num 4, .num 5, .num 3, .num 4, .str "x"⟩]⟩]

/-- The prices rows `get_stooq_prices_and_tickers` returns on
`c7files`: the `'x'` volume has been coerced to NaN. -/
def c7table : List Row :=
  [⟨"S.US", ⟨2012, 3, 2⟩, .num 4, .num 5, .num 3, .num 4, .nan⟩]

/-- Two well-formed files and one empty file for the skip-and-continue
witness. -/
def c1good1 : SFile := ⟨"a.us", .rows [sampleRow "A.US" 2005 1 3 10]⟩

/-- Second well-formed file for the skip-and-continue witness. -/
def c1good2 : SFile := ⟨"b.us", .rows [sampleRow "B.US" 2006 1 4 11]⟩

/-- A file whose parse raises `EmptyDataError`. -/
def c1bad : SFile := ⟨"miss.us", .emptyData⟩

/-- An all-numeric directory for the preservation witness. -/
def c5wfiles : List SFile :=
  [⟨"ok.us", .rows [sampleRow "K.US" 2015 6 8 42]⟩]

/-- A directory function giving every (market, asset-class) pair one
well-formed one-row file, for the store-loop witness. -/
def c6fs : String → String → List SFile :=
  fun _ ac => [⟨ac ++ ".us", .rows [sampleRow (ac ++ ".US") 2010 1 4 5]⟩]

/-- The store produced by the store loop on `c6fs`. -/
def c6Store : Store :=
  match marketsLoop c6fs with
  | .ok s => s
  | .error _ => []

/-- A concrete archive with one `.txt` member and one `.bin` member. -/
def c9arch : String → Option (List ZMember) :=
  fun p =>
    if p = archivePath "us" "d" then
      some [⟨"daily/us/a.txt", ["h", "r"]⟩, ⟨"daily/us/junk.bin", ["z"]⟩]
    else none


/-- A directory with one 1999 row and one 2001 row, for the year-filter
witness. -/
def c8wfiles : List SFile :=
  [⟨"y.us", .rows [sampleRow "Y.US" 1999 12 31 1, sampleRow "Y.US" 2001 3 5 2]⟩]

/-- Two files whose first rows share a ticker, for the last-write-wins
witness. -/
def c10wfiles : List SFile :=
  [⟨"first.us", .rows [sampleRow "T.US" 2002 4 1 3]⟩,
   ⟨"second.us", .rows [sampleRow "T.US" 2003 4 1 4]⟩]

instance (t : List Row) : Decidable (tickerDateUnique t) :=
  decidable_of_iff (t.Pairwise fun a b : Row => a.ticker ≠ b.ticker ∨ a.date ≠ b.date) Iff.rfl

/-! ### Helper lemmas -/

theorem dictGet_dictInsert_self (k v : String) (d : List (String × String)) :
    dictGet (dictInsert k v d) k = some v := by
  induction d with
  | nil => simp [dictInsert, dictGet]
  | cons e rest ih =>
    obtain ⟨k', v'⟩ := e
    by_cases h : k' = k
    · simp [dictInsert, dictGet, h]
    · simp [dictInsert, dictGet, h, ih]

theorem dictGet_dictInsert_ne (k v x : String) (d : List (String × String))
    (h : x ≠ k) : dictGet (dictInsert k v d) x = dictGet d x := by
  have hk : k ≠ x := fun hh => h hh.symm
  induction d with
  | nil => simp [dictInsert, dictGet, hk]
  | cons e rest ih =>
    obtain ⟨k', v'⟩ := e
    by_cases h' : k' = k
    · subst h'
      simp [dictInsert, dictGet, hk]
    · simp [dictInsert, dictGet, h', ih]

theorem length_dictInsert_le (k v : String) (d : List (String × String)) :
    (dictInsert k v d).length ≤ d.length + 1 := by
  induction d with
  | nil => simp [dictInsert]
  | cons e rest ih =>
    obtain ⟨k', v'⟩ := e
    by_cases h : k' = k
    · simp [dictInsert, h]
    · simpa [dictInsert, h] using ih

theorem insertRow_perm (r : Row) (l : List Row) :
    (insertRow r l).Perm (r :: l) := by
  induction l with
  | nil => simp [insertRow]
  | cons x xs ih =>
    by_cases h : rowLeB r x
    · simp [insertRow, h]
    · simp only [insertRow, h, if_neg]
      exact (ih.cons x).trans (List.Perm.swap r x xs)

theorem sortIndex_perm (l : List Row) : (sortIndex l).Perm l := by
  induction l with
  | nil => simp [sortIndex]
  | cons r rs ih =>
    exact (insertRow_perm r (sortIndex rs)).trans (ih.cons r)

theorem mem_sortIndex (a : Row) (l : List Row) : a ∈ sortIndex l ↔ a ∈ l :=
  (sortIndex_perm l).mem_iff

theorem mem_dropDupAux (a : Row) (seen l : List Row) :
    a ∈ dropDupAux seen l ↔ a ∈ l ∧ a ∉ seen := by
  induction l generalizing seen with
  | nil => simp [dropDupAux]
  | cons r rs ih =>
    by_cases h : r ∈ seen
    · rw [dropDupAux, if_pos h]
      simp only [ih, List.mem_cons]
      constructor
      · rintro ⟨ha, hs⟩
        exact ⟨Or.inr ha, hs⟩
      · rintro ⟨rfl | ha, hs⟩
        · exact absurd h hs
        · exact ⟨ha, hs⟩
    · rw [dropDupAux, if_neg h]
      simp only [List.mem_cons, ih]
      constructor
      · rintro (rfl | ⟨ha, hs⟩)
        · exact ⟨Or.inl rfl, h⟩
        · exact ⟨Or.inr ha, fun hx => hs (Or.inr hx)⟩
      · rintro ⟨rfl | ha, hs⟩
        · exact Or.inl rfl
        · by_cases har : a = r
          · exact Or.inl har
          · exact Or.inr ⟨ha, fun hx => hx.elim har hs⟩

theorem mem_drop_duplicates (a : Row) (l : List Row) :
    a ∈ drop_duplicates l ↔ a ∈ l := by
  rw [drop_duplicates, mem_dropDupAux]
  simp

theorem nodup_dropDupAux (seen l : List Row) : (dropDupAux seen l).Nodup := by
  induction l generalizing seen with
  | nil => simp [dropDupAux]
  | cons r rs ih =>
    by_cases h : r ∈ seen
    · rw [dropDupAux, if_pos h]
      exact ih seen
    · rw [dropDupAux, if_neg h]
      refine List.nodup_cons.mpr ⟨fun hr => ?_, ih (r :: seen)⟩
      exact ((mem_dropDupAux r (r :: seen) rs).mp hr).2 (List.mem_cons_self r seen)

theorem nodup_drop_duplicates (l : List Row) : (drop_duplicates l).Nodup :=
  nodup_dropDupAux [] l

theorem sublist_dropDupAux (seen l : List Row) : (dropDupAux seen l).Sublist l := by
  induction l generalizing seen with
  | nil => simp [dropDupAux]
  | cons r rs ih =>
    by_cases h : r ∈ seen
    · rw [dropDupAux, if_pos h]
      exact (ih seen).trans (List.sublist_cons_self r rs)
    · rw [dropDupAux, if_neg h]
      exact (ih (r :: seen)).cons₂ r

theorem foldl_fileStep_frames (s : LoopState) (files : List SFile) :
    (files.foldl fileStep s).frames = s.frames ++ framesOf files := by
  induction files generalizing s with
  | nil => simp [framesOf]
  | cons f fs ih =>
    rw [List.foldl_cons, ih]
    cases hc : f.content with
    | emptyData => simp [framesOf, fileStep, hc]
    | rows rs =>
      cases rs with
      | nil => simp [framesOf, fileStep, hc]
      | cons r rest => simp [framesOf, fileStep, hc]

theorem foldl_fileStep_log (s : LoopState) (files : List SFile) :
    (files.foldl fileStep s).log = s.log ++ logLinesOf files := by
  induction files generalizing s with
  | nil => simp [logLinesOf]
  | cons f fs ih =>
    rw [List.foldl_cons, ih]
    cases hc : f.content with
    | emptyData => simp [logLinesOf, fileStep, hc]
    | rows rs =>
      cases rs with
      | nil => simp [logLinesOf, fileStep, hc]
      | cons r rest => simp [logLinesOf, fileStep, hc]

theorem foldl_fileStep_tickers (s : LoopState) (files : List SFile) :
    (files.foldl fileStep s).tickers = tickersFold s.tickers files := by
  induction files generalizing s with
  | nil => simp [tickersFold]
  | cons f fs ih =>
    rw [List.foldl_cons, ih]
    cases hc : f.content with
    | emptyData => simp [tickersFold, tickStep, fileStep, hc]
    | rows rs =>
      cases rs with
      | nil => simp [tickersFold, tickStep, fileStep, hc]
      | cons r rest => simp [tickersFold, tickStep, fileStep, hc]

theorem processFiles_frames (files : List SFile) :
    (processFiles files).frames = framesOf files := by
  simpa using foldl_fileStep_frames ⟨[], [], []⟩ files

theorem processFiles_log (files : List SFile) :
    (processFiles files).log = logLinesOf files := by
  simpa using foldl_fileStep_log ⟨[], [], []⟩ files

theorem processFiles_tickers (files : List SFile) :
    (processFiles files).tickers = tickersFold [] files := by
  simpa using foldl_fileStep_tickers ⟨[], [], []⟩ files

theorem framesOf_append (l1 l2 : List SFile) :
    framesOf (l1 ++ l2) = framesOf l1 ++ framesOf l2 := by
  simp [framesOf, List.filterMap_append]

theorem logLinesOf_append (l1 l2 : List SFile) :
    logLinesOf (l1 ++ l2) = logLinesOf l1 ++ logLinesOf l2 := by
  simp [logLinesOf, List.filterMap_append]

theorem framesOf_flatten_eq (files : List SFile) :
    (framesOf files).flatten = (files.map contentRows).flatten := by
  induction files with
  | nil => simp [framesOf]
  | cons f fs ih =>
    cases hc : f.content with
    | emptyData =>
      rw [show framesOf (f :: fs) = framesOf fs by simp [framesOf, List.filterMap_cons, hc]]
      rw [List.map_cons, List.flatten_cons,
        show contentRows f = [] by simp [contentRows, hc], List.nil_append, ih]
    | rows rs =>
      rw [show framesOf (f :: fs) = rs :: framesOf fs by
            simp [framesOf, List.filterMap_cons, hc]]
      rw [List.flatten_cons, List.map_cons, List.flatten_cons,
        show contentRows f = rs by simp [contentRows, hc], ih]

theorem dictGet_tickersFold (x : String) (files : List SFile)
    (t : List (String × String)) :
    dictGet (tickersFold t files) x =
      match files.reverse.find? (fun f => decide (firstTicker f = some x)) with
      | some g => some (stemKey g.stem)
      | none => dictGet t x := by
  induction files generalizing t with
  | nil => simp [tickersFold]
  | cons f fs ih =>
    rw [show tickersFold t (f :: fs) = tickersFold (tickStep t f) fs from rfl, ih]
    rw [List.reverse_cons, List.find?_append]
    cases hf : fs.reverse.find? (fun f => decide (firstTicker f = some x)) with
    | some g => simp
    | none =>
      simp only [Option.none_or]
      cases hc : f.content with
      | emptyData => simp [tickStep, hc, firstTicker, List.find?]
      | rows rs =>
        cases rs with
        | nil => simp [tickStep, hc, firstTicker, List.find?]
        | cons r rest =>
          by_cases hx : r.ticker = x
          · subst hx
            simp [tickStep, hc, firstTicker, List.find?, dictGet_dictInsert_self]
          · simp [tickStep, hc, firstTicker, List.find?, hx,
              dictGet_dictInsert_ne _ _ _ _ (fun hh => hx hh.symm)]

theorem length_tickersFold_le (t : List (String × String)) (files : List SFile) :
    (tickersFold t files).length ≤ t.length + (files.filter contributes).length := by
  induction files generalizing t with
  | nil => simp [tickersFold]
  | cons f fs ih =>
    rw [show tickersFold t (f :: fs) = tickersFold (tickStep t f) fs from rfl]
    cases hc : f.content with
    | emptyData =>
      rw [show tickStep t f = t by simp [tickStep, hc]]
      simpa [List.filter_cons, contributes, hc] using ih t
    | rows rs =>
      cases rs with
      | nil =>
        rw [show tickStep t f = t by simp [tickStep, hc]]
        simpa [List.filter_cons, contributes, hc] using ih t
      | cons r rest =>
        rw [show tickStep t f = dictInsert r.ticker (stemKey f.stem) t by
              simp [tickStep, hc]]
        have h1 := ih (dictInsert r.ticker (stemKey f.stem) t)
        have h2 := length_dictInsert_le r.ticker (stemKey f.stem) t
        have h3 : ((f :: fs).filter contributes).length
            = (fs.filter contributes).length + 1 := by
          simp [List.filter_cons, contributes, hc]
        omega

theorem mem_storeTable (r : Row) (rows : List Row) :
    r ∈ storeTable rows ↔ r ∈ rows ∧ yearInRange r = true := by
  rw [storeTable, mem_sortIndex, mem_drop_duplicates, List.mem_filter, mem_sortIndex]

theorem count_drop_duplicates (l : List Row) (r : Row) :
    (drop_duplicates l).count r = if r ∈ l then 1 else 0 := by
  by_cases h : r ∈ l
  · rw [if_pos h]
    exact List.count_eq_one_of_mem (nodup_drop_duplicates l)
      ((mem_drop_duplicates r l).mpr h)
  · rw [if_neg h]
    exact List.count_eq_zero_of_not_mem fun hm => h ((mem_drop_duplicates r l).mp hm)

theorem toNumericCell_eq_self (c : Cell) (h : numericCell c = true) :
    toNumericCell c = c := by
  cases c <;> simp_all [numericCell, toNumericCell]

theorem coerceRow_eq_self (r : Row) (h : numericRow r = true) : coerceRow r = r := by
  simp only [numericRow, Bool.and_eq_true] at h
  obtain ⟨⟨⟨⟨ho, h2⟩, h3⟩, h4⟩, h5⟩ := h
  simp [coerceRow, toNumericCell_eq_self _ ho, toNumericCell_eq_self _ h2,
    toNumericCell_eq_self _ h3, toNumericCell_eq_self _ h4, toNumericCell_eq_self _ h5]

theorem framesOf_eq_nil_iff (files : List SFile) :
    framesOf files = [] ↔ ∀ f ∈ files, f.content = .emptyData := by
  rw [framesOf, List.filterMap_eq_nil_iff]
  constructor
  · intro h f hf
    have hh := h f hf
    cases hc : f.content with
    | emptyData => rfl
    | rows rs => rw [hc] at hh; simp at hh
  · intro h f hf
    rw [h f hf]

theorem pricesRows_eq_map (files : List SFile) :
    pricesRowsOfFiles files = (rawRowsOfFiles files).map coerceRow := rfl

theorem storeGet_to_hdf_self (s : Store) (k : String) (e : Entry) :
    storeGet (to_hdf s k e) k = some e := by
  induction s with
  | nil => simp [to_hdf, storeGet]
  | cons kv rest ih =>
    obtain ⟨k0, e0⟩ := kv
    by_cases h : k0 = k
    · simp [to_hdf, storeGet, h]
    · simp [to_hdf, storeGet, h, ih]

theorem storeGet_to_hdf_ne (s : Store) (k k' : String) (e : Entry)
    (h : k' ≠ k) : storeGet (to_hdf s k e) k' = storeGet s k' := by
  have hk : k ≠ k' := fun hh => h hh.symm
  induction s with
  | nil => simp [to_hdf, storeGet, hk]
  | cons kv rest ih =>
    obtain ⟨k0, e0⟩ := kv
    by_cases h0 : k0 = k
    · subst h0
      simp [to_hdf, storeGet, hk]
    · simp [to_hdf, storeGet, h0, ih]

/-! ### Claims -/

/-- C1: a file whose parse raises `EmptyDataError` or whose frame has no
first data row (`IndexError`) is logged to the console exactly once and
skipped, and processing continues: the combined rows are exactly those
of the surrounding files, with the rows parsed before the failing file
kept, and the tickers dict is as if the failing file were absent. -/
theorem c1_failing_file_logged_and_skipped (l1 l2 : List SFile) (bad : SFile)
    (h : bad.content = .emptyData ∨ bad.content = .rows []) :
    logOfFiles (l1 ++ bad :: l2)
      = logOfFiles l1 ++ ("\tdata missing " ++ bad.stem) :: logOfFiles l2
    ∧ pricesRowsOfFiles (l1 ++ bad :: l2)
      = pricesRowsOfFiles l1 ++ pricesRowsOfFiles l2
    ∧ tickersOfFiles (l1 ++ bad :: l2) = tickersOfFiles (l1 ++ l2) := by
  have hsplit : l1 ++ bad :: l2 = l1 ++ [bad] ++ l2 := by simp
  have hlog1 : logLinesOf [bad] = ["\tdata missing " ++ bad.stem] := by
    rcases h with h | h <;> simp [logLinesOf, h]
  refine ⟨?_, ?_, ?_⟩
  · rw [logOfFiles, processFiles_log, logOfFiles, processFiles_log,
      logOfFiles, processFiles_log, hsplit, logLinesOf_append, logLinesOf_append, hlog1]
    simp
  · rw [pricesRowsOfFiles, processFiles_frames, pricesRowsOfFiles, processFiles_frames,
      pricesRowsOfFiles, processFiles_frames, hsplit, framesOf_append, framesOf_append]
    rcases h with h | h
    · rw [show framesOf [bad] = [] by simp [framesOf, h]]
      simp
    · rw [show framesOf [bad] = [[]] by simp [framesOf, h]]
      simp
  · rw [tickersOfFiles, processFiles_tickers, tickersOfFiles, processFiles_tickers,
      tickersFold, tickersFold, List.foldl_append, List.foldl_append, List.foldl_cons]
    rw [show tickStep (List.foldl tickStep [] l1) bad = List.foldl tickStep [] l1 by
          rcases h with h | h <;> simp [tickStep, h]]

/-- C1 witness: a concrete empty file between two well-formed files. -/
theorem c1_witness :
    logOfFiles [c1good1, c1bad, c1good2]
      = logOfFiles [c1good1] ++ ("\tdata missing " ++ c1bad.stem) :: logOfFiles [c1good2]
    ∧ pricesRowsOfFiles [c1good1, c1bad, c1good2]
      = pricesRowsOfFiles [c1good1] ++ pricesRowsOfFiles [c1good2]
    ∧ tickersOfFiles [c1good1, c1bad, c1good2] = tickersOfFiles ([c1good1] ++ [c1good2]) :=
  c1_failing_file_logged_and_skipped [c1good1] [c1good2] c1bad (Or.inl rfl)

/-- C2, counterexample: on a directory state with no matching file at
all, the `prices` list stays empty and `pd.concat` raises `ValueError`,
which propagates to the caller — the function does not return a
(prices, tickers) result. -/
theorem c2_counterexample :
    get_stooq_prices_and_tickers "daily" [] = .error "No objects to concatenate" := rfl

/-- C2 amended: `get_stooq_prices_and_tickers` returns a
(prices, tickers) result exactly when at least one file's `read_csv`
call succeeds (possibly with zero data rows); when no file matches or
every file raises `EmptyDataError`, the final `pd.concat` raises
`ValueError`, which propagates to the caller. -/
theorem c2_returns_iff_some_frame (frequency : String) (files : List SFile) :
    (∃ pt, get_stooq_prices_and_tickers frequency files = .ok pt)
      ↔ ∃ f ∈ files, f.content ≠ Content.emptyData := by
  have hiff : (processFiles files).frames = [] ↔ ∀ f ∈ files, f.content = .emptyData := by
    rw [processFiles_frames]
    exact framesOf_eq_nil_iff files
  constructor
  · rintro ⟨pt, hpt⟩
    by_contra hno
    push_neg at hno
    have hempty : (processFiles files).frames = [] := hiff.mpr hno
    simp [get_stooq_prices_and_tickers, hempty] at hpt
  · rintro ⟨f, hf, hc⟩
    have hne : (processFiles files).frames ≠ [] := fun hh => hc (hiff.mp hh f hf)
    exact ⟨((processFiles files).frames.flatten.map coerceRow, (processFiles files).tickers),
      by simp [get_stooq_prices_and_tickers, List.isEmpty_iff, hne]⟩

/-- C2 witness for the amended claim: one well-formed file makes the
function return normally. -/
theorem c2_witness :
    ∃ pt, get_stooq_prices_and_tickers "daily"
      [⟨"w.us", Content.rows [sampleRow "W.US" 2003 2 5 1]⟩] = Except.ok pt :=
  (c2_returns_iff_some_frame "daily" [⟨"w.us", Content.rows [sampleRow "W.US" 2003 2 5 1]⟩]).mpr
    ⟨⟨"w.us", Content.rows [sampleRow "W.US" 2003 2 5 1]⟩, by simp, by simp⟩

/-- C3, counterexample: two rows that agree on (ticker, date) but differ
in `close` both survive `drop_duplicates()`, so (ticker, date) pairs are
not unique in the table written to the store. -/
theorem c3_counterexample : ¬ tickerDateUnique (storeTableOfFiles c3files) := by decide

/-- C3 amended: after the deduplication step, exact duplicate rows are
unique — any two distinct rows of the stored table differ in at least
one field — but rows that agree on (ticker, date) while differing in a
price field are all retained, so (ticker, date) uniqueness is not
guaranteed. -/
theorem c3_stored_table_nodup (files : List SFile) :
    (storeTableOfFiles files).Nodup := by
  rw [storeTableOfFiles, storeTable]
  exact ((sortIndex_perm _).nodup_iff).mpr (nodup_drop_duplicates _)

/-- C4: `drop_duplicates()` removes a row exactly when it is a later
copy of a row already kept: the output is a subsequence of the input in
which every row of the input appears exactly once — duplicated rows keep
one copy, and rows that differ in at least one field are all retained. -/
theorem c4_drop_duplicates_exact (l : List Row) :
    (drop_duplicates l).Sublist l
    ∧ ∀ r : Row, (drop_duplicates l).count r = if r ∈ l then 1 else 0 :=
  ⟨sublist_dropDupAux [] l, fun r => count_drop_duplicates l r⟩

/-- C5, counterexample: a parsed row whose `volume` cell is the
non-numeric string `'n/a'` reaches the store with its `volume` coerced
to NaN by `pd.to_numeric(..., errors='coerce')` — the written field
value is not identical to the parsed one. -/
theorem c5_counterexample :
    ∃ r, r ∈ storeTableOfFiles c5files ∧ r ∉ rawRowsOfFiles c5files := by
  refine ⟨⟨"B.US", ⟨2011, 2, 1⟩, .num 1, .num 2, .num 0, .num 3, .nan⟩, ?_, ?_⟩ <;> decide

/-- C5 amended: numeric field values are never mutated — when every
parsed cell is numeric, each row of the table written to the store is
exactly one of the parsed rows; the only value-changing step between
parsing and writing is the `pd.to_numeric(..., errors='coerce')` pass,
which rewrites non-numeric parsed values to numbers or NaN.  Beyond it,
records are only concatenated, filtered by date, deduplicated,
reindexed and reordered. -/
theorem c5_numeric_rows_preserved (files : List SFile)
    (h : ∀ r ∈ rawRowsOfFiles files, numericRow r = true) :
    ∀ r ∈ storeTableOfFiles files, r ∈ rawRowsOfFiles files := by
  intro r hr
  rw [storeTableOfFiles] at hr
  have h1 : r ∈ pricesRowsOfFiles files :=
    ((mem_storeTable r (pricesRowsOfFiles files)).mp hr).1
  rw [pricesRows_eq_map] at h1
  rcases List.mem_map.mp h1 with ⟨r0, hr0, hcoe⟩
  rwa [← hcoe, coerceRow_eq_self r0 (h r0 hr0)]

/-- C5 witness: an all-numeric directory, on which every stored row is
one of the parsed rows. -/
theorem c5_witness :
    (∀ r ∈ rawRowsOfFiles c5wfiles, numericRow r = true)
    ∧ ∀ r ∈ storeTableOfFiles c5wfiles, r ∈ rawRowsOfFiles c5wfiles :=
  ⟨by decide, c5_numeric_rows_preserved c5wfiles (by decide)⟩

/-- C7, counterexample: when a parsed cell is a non-numeric string, the
combined table differs from the plain concatenation of the per-file
parsed tables — the uniform numeric coercion has rewritten the value. -/
theorem c7_counterexample :
    ∃ p t, get_stooq_prices_and_tickers "daily" c7files = .ok (p, t)
      ∧ p ≠ (c7files.map contentRows).flatten := by
  refine ⟨c7table, [("S.US", "strp")], ?_, by decide⟩
  rfl

/-- C7 amended: `get_stooq_prices_and_tickers` is a single sequential
pass — whenever it returns, the combined table is exactly the
concatenation, in enumeration order, of the per-file parsed tables with
the element-wise numeric coercion applied to their value columns. -/
theorem c7_sequential_concat (frequency : String) (files : List SFile)
    (p : List Row) (t : List (String × String))
    (h : get_stooq_prices_and_tickers frequency files = .ok (p, t)) :
    p = (files.map fun f => (contentRows f).map coerceRow).flatten := by
  have hp : p = (List.map (List.map coerceRow) (processFiles files).frames).flatten := by
    by_cases he : (processFiles files).frames.isEmpty
    · simp [get_stooq_prices_and_tickers, he] at h
    · simp [get_stooq_prices_and_tickers, he] at h
      exact h.1.symm
  rw [hp, processFiles_frames, ← List.map_flatten, framesOf_flatten_eq,
    List.map_flatten, List.map_map]
  rfl

/-- C7 witness: a one-file directory on which the theorem's hypothesis
holds by computation. -/
theorem c7_witness :
    ([coerceRow (sampleRow "Q.US" 2004 7 9 2)] : List Row)
      = ([⟨"q.us", Content.rows [sampleRow "Q.US" 2004 7 9 2]⟩].map
          fun f => (contentRows f).map coerceRow).flatten :=
  c7_sequential_concat "daily" [⟨"q.us", Content.rows [sampleRow "Q.US" 2004 7 9 2]⟩]
    [coerceRow (sampleRow "Q.US" 2004 7 9 2)] [("Q.US", "q")] rfl

/-- C8: the table written to the store contains exactly the (coerced)
parsed observations whose date year lies in 2000–2019 inclusive; every
observation dated outside that range is silently dropped. -/
theorem c8_year_filter (files : List SFile) (r : Row) :
    r ∈ storeTableOfFiles files
      ↔ r ∈ pricesRowsOfFiles files ∧ 2000 ≤ r.date.year ∧ r.date.year ≤ 2019 := by
  rw [storeTableOfFiles, mem_storeTable]
  simp [yearInRange, Bool.and_eq_true, decide_eq_true_eq, and_assoc]

/-- C8 witness: the 2001 observation is stored. -/
theorem c8_witness : sampleRow "Y.US" 2001 3 5 2 ∈ storeTableOfFiles c8wfiles :=
  (c8_year_filter c8wfiles (sampleRow "Y.US" 2001 3 5 2)).mpr ⟨by decide, by decide, by decide⟩

/-- C9: `download_price_data` raises `FileNotFoundError` exactly when
the archive `stooq/.downloaded/{freq}_{market}_txt.zip` is missing;
when the archive exists the extracted files are exactly the members
whose names end in `'.txt'`, every other member being skipped. -/
theorem c9_download_price_data (arch : String → Option (List ZMember))
    (market freq : String) :
    ((∃ e, download_price_data arch market freq = .error e)
        ↔ arch (archivePath market freq) = none)
    ∧ ∀ members, arch (archivePath market freq) = some members →
        ∃ out, download_price_data arch market freq = .ok out
          ∧ ∀ p d, (p, d) ∈ out ↔ ∃ m ∈ members,
              strEndsWith m.name ".txt" = true ∧ p = "stooq/" ++ m.name ∧ d = m.data := by
  constructor
  · cases ha : arch (archivePath market freq) with
    | none => simp [download_price_data, ha]
    | some members => simp [download_price_data, ha]
  · intro members hm
    refine ⟨(members.filter fun m => strEndsWith m.name ".txt").map
        fun m => ("stooq/" ++ m.name, m.data), by simp [download_price_data, hm], ?_⟩
    intro p d
    simp only [List.mem_map, List.mem_filter]
    constructor
    · rintro ⟨m, ⟨hm1, hm2⟩, heq⟩
      obtain ⟨hp, hd⟩ := Prod.mk.injEq .. ▸ heq
      exact ⟨m, hm1, hm2, hp.symm, hd.symm⟩
    · rintro ⟨m, hm1, hm2, rfl, rfl⟩
      exact ⟨m, ⟨hm1, hm2⟩, rfl⟩

/-- C9 witness: a concrete archive with one `.txt` and one `.bin`
member. -/
theorem c9_witness :
    ∃ out, download_price_data c9arch "us" "d" = .ok out
      ∧ ∀ p d, (p, d) ∈ out ↔ ∃ m ∈ ([⟨"daily/us/a.txt", ["h", "r"]⟩,
            ⟨"daily/us/junk.bin", ["z"]⟩] : List ZMember),
          strEndsWith m.name ".txt" = true ∧ p = "stooq/" ++ m.name ∧ d = m.data :=
  (c9_download_price_data c9arch "us" "d").2
    [⟨"daily/us/a.txt", ["h", "r"]⟩, ⟨"daily/us/junk.bin", ["z"]⟩] rfl

/-- C10: in the returned ticker series, looking a ticker up yields the
lower-cased stem key of the last enumerated file whose first data row
carries that ticker (later files overwrite earlier ones), and the series
has at most as many entries as there are files contributing a first data
row. -/
theorem c10_tickers_last_write_wins (files : List SFile) :
    (∀ x, dictGet (tickersOfFiles files) x
      = (files.reverse.find? fun f => decide (firstTicker f = some x)).map
          fun f => stemKey f.stem)
    ∧ (tickersOfFiles files).length ≤ (files.filter contributes).length := by
  constructor
  · intro x
    rw [tickersOfFiles, processFiles_tickers, dictGet_tickersFold]
    cases hf : files.reverse.find? fun f => decide (firstTicker f = some x) with
    | some g => simp
    | none => simp [dictGet]
  · rw [tickersOfFiles, processFiles_tickers]
    simpa using length_tickersFold_le [] files

/-- C10 witness: with two files sharing the first-row ticker `T.US`, the
second file's stem wins. -/
theorem c10_witness :
    dictGet (tickersOfFiles c10wfiles) "T.US"
      = (c10wfiles.reverse.find? fun f => decide (firstTicker f = some "T.US")).map
          fun f => stemKey f.stem :=
  (c10_tickers_last_write_wins c10wfiles).1 "T.US"

/-- C6: whenever the markets store loop completes, every hard-coded
(market, asset-class) pair has its processed prices table and its ticker
series written into the single shared store under the pair's key prefix
`stooq/{market}/{asset_class.replace(" ", "/")}/`, with the field
component `prices` for the table and `tickers` for the series. -/
theorem c6_pairs_written_under_keys (fs : String → String → List SFile) (store : Store)
    (h : marketsLoop fs = .ok store) :
    ∀ market acs, (market, acs) ∈ markets → ∀ ac ∈ acs, ∃ p t,
      get_stooq_prices_and_tickers "daily" (fs market ac) = .ok (p, t)
      ∧ storeGet store (storeKey market ac ++ "prices") = some (.prices (storeTable p))
      ∧ storeGet store (storeKey market ac ++ "tickers") = some (.tickers t) := by
  rw [marketsLoop, markets] at h
  simp only [storeMarkets, storePair, storeAssetclasses] at h
  cases hg1 : get_stooq_prices_and_tickers "daily" (fs "us" "nasdaq etfs") with
  | error e => rw [hg1] at h; simp at h
  | ok pt1 =>
  obtain ⟨p1, t1⟩ := pt1
  rw [hg1] at h
  dsimp only at h
  cases hg2 : get_stooq_prices_and_tickers "daily" (fs "us" "nasdaq stocks") with
  | error e => rw [hg2] at h; simp at h
  | ok pt2 =>
  obtain ⟨p2, t2⟩ := pt2
  rw [hg2] at h
  dsimp only at h
  cases hg3 : get_stooq_prices_and_tickers "daily" (fs "us" "nyse etfs") with
  | error e => rw [hg3] at h; simp at h
  | ok pt3 =>
  obtain ⟨p3, t3⟩ := pt3
  rw [hg3] at h
  dsimp only at h
  cases hg4 : get_stooq_prices_and_tickers "daily" (fs "us" "nyse stocks") with
  | error e => rw [hg4] at h; simp at h
  | ok pt4 =>
  obtain ⟨p4, t4⟩ := pt4
  rw [hg4] at h
  dsimp only at h
  cases hg5 : get_stooq_prices_and_tickers "daily" (fs "us" "nysemkt stocks") with
  | error e => rw [hg5] at h; simp at h
  | ok pt5 =>
  obtain ⟨p5, t5⟩ := pt5
  rw [hg5] at h
  dsimp only at h
  rw [Except.ok.injEq] at h
  subst h
  intro market acs hm ac hac
  rw [markets, List.mem_singleton, Prod.mk.injEq] at hm
  obtain ⟨rfl, rfl⟩ := hm
  simp only [List.mem_cons, List.not_mem_nil, or_false] at hac
  rcases hac with rfl | rfl | rfl | rfl | rfl
  · exact ⟨p1, t1, hg1, by simp +decide [storeGet_to_hdf_ne, storeGet_to_hdf_self],
      by simp +decide [storeGet_to_hdf_ne, storeGet_to_hdf_self]⟩
  · exact ⟨p2, t2, hg2, by simp +decide [storeGet_to_hdf_ne, storeGet_to_hdf_self],
      by simp +decide [storeGet_to_hdf_ne, storeGet_to_hdf_self]⟩
  · exact ⟨p3, t3, hg3, by simp +decide [storeGet_to_hdf_ne, storeGet_to_hdf_self],
      by simp +decide [storeGet_to_hdf_ne, storeGet_to_hdf_self]⟩
  · exact ⟨p4, t4, hg4, by simp +decide [storeGet_to_hdf_ne, storeGet_to_hdf_self],
      by simp +decide [storeGet_to_hdf_ne, storeGet_to_hdf_self]⟩
  · exact ⟨p5, t5, hg5, by simp +decide [storeGet_to_hdf_ne, storeGet_to_hdf_self],
      by simp +decide [storeGet_to_hdf_ne, storeGet_to_hdf_self]⟩

/-- C6 witness: a concrete directory function on which the loop
completes and the first pair's keys hold its tables. -/
theorem c6_witness :
    ∃ p t, get_stooq_prices_and_tickers "daily" (c6fs "us" "nasdaq etfs") = .ok (p, t)
      ∧ storeGet c6Store (storeKey "us" "nasdaq etfs" ++ "prices")
          = some (.prices (storeTable p))
      ∧ storeGet c6Store (storeKey "us" "nasdaq etfs" ++ "tickers") = some (.tickers t) :=
  c6_pairs_written_under_keys c6fs c6Store rfl "us"
    ["nasdaq etfs", "nasdaq stocks", "nyse etfs", "nyse stocks", "nysemkt stocks"]
    (by simp [markets]) "nasdaq etfs" (by simp)
